import Mathlib

/-!
Verification development for the mediawiki-mcp wiki content-retrieval
pipeline.  Go source files are shallowly embedded: Go strings are modelled
as `List Char` (with `String` wrappers at API boundaries), Go `int` as
`Int`, Go `time.Duration` as an `Int` number of nanoseconds, fallible
functions as `Except`/`Option`, and the stateful TTL cache as explicit
state passing with an explicit clock argument.  Regular-expression
replacements from the source are embedded as explicit left-to-right
scanning functions that mirror the leftmost matching semantics of the Go
`regexp` (RE2) package on the concrete patterns used by the source.
-/

namespace MediawikiMCP

/-! ## Go string primitives (strings package), on `List Char` -/

/-- Whitespace recognised by Go `unicode.IsSpace` (ASCII part; the source
only ever meets ASCII whitespace in the properties verified here). -/
def isGoSpace (c : Char) : Bool :=
  c = ' ' || c = '\t' || c = '\n' || c = '\x0b' || c = '\x0c' || c = '\r'

/-- Whitespace class of the RE2 escape `\s`, namely `[\t\n\f\r ]`. -/
def isRE2Space (c : Char) : Bool :=
  c = '\t' || c = '\n' || c = '\x0c' || c = '\r' || c = ' '

/-- Character list of a string literal. -/
def lit (s : String) : List Char := s.data

/-- Go `strings.TrimSpace`: drop whitespace from both ends. -/
def goTrimSpaceL (l : List Char) : List Char :=
  (((l.dropWhile isGoSpace).reverse).dropWhile isGoSpace).reverse

/-- Go `strings.TrimPrefix` on char lists: remove `pre` when it is a
leading pattern of `l`, otherwise return `l` unchanged. -/
def goTrimLeadL (pre l : List Char) : List Char :=
  if pre.isPrefixOf l then l.drop pre.length else l

/-- Go `strings.TrimPrefix` on `String`. -/
def goTrimLeadS (pre s : String) : String := ⟨goTrimLeadL pre.data s.data⟩

/-- Consume the literal `pat` at the head of `l`, returning the remainder
on success (the success condition is exactly `pat.isPrefixOf l`). -/
def dropLit : List Char → List Char → Option (List Char)
  | [], l => some l
  | _ :: _, [] => none
  | p :: ps, c :: rest => if c = p then dropLit ps rest else none

/-- Go `strings.Contains` with a substring pattern. -/
def containsSub (pat : List Char) : List Char → Bool
  | [] => pat.isPrefixOf []
  | c :: rest => pat.isPrefixOf (c :: rest) || containsSub pat rest

/-- Characters strictly before the first occurrence of `pat` (the whole
list when `pat` does not occur); matches `s[:strings.Index(s, pat)]`. -/
def takeBeforeSub (pat : List Char) : List Char → List Char
  | [] => []
  | c :: rest => if pat.isPrefixOf (c :: rest) then [] else c :: takeBeforeSub pat rest

/-- Characters strictly after the first occurrence of `pat`, or `none`
when `pat` does not occur.  Together with `takeBeforeSub` this models the
second element of Go `strings.Split(s, pat)`. -/
def afterSub (pat : List Char) : List Char → Option (List Char)
  | [] => none
  | c :: rest =>
    if pat.isPrefixOf (c :: rest) then some ((c :: rest).drop pat.length)
    else afterSub pat rest

/-- Go `strings.Fields` (split around runs of whitespace), via an
accumulator for the word being read. -/
def goFieldsAux : List Char → List Char → List (List Char)
  | [], cur => if cur = [] then [] else [cur.reverse]
  | c :: rest, cur =>
    if isGoSpace c then
      if cur = [] then goFieldsAux rest [] else cur.reverse :: goFieldsAux rest []
    else goFieldsAux rest (c :: cur)

/-- Go `strings.Fields`. -/
def goFields (l : List Char) : List (List Char) := goFieldsAux l []

/-- Join word lists with single spaces; models `strings.Join(words, " ")`. -/
def joinSpace : List (List Char) → List Char
  | [] => []
  | [w] => w
  | w :: rest => w ++ ' ' :: joinSpace rest

/-- Go `strings.Split` on a single separator character. -/
def splitChar (sep : Char) : List Char → List (List Char)
  | [] => [[]]
  | c :: rest =>
    match splitChar sep rest with
    | [] => if c = sep then [[], []] else [[c]]
    | h :: t => if c = sep then [] :: h :: t else (c :: h) :: t

/-- Go `strings.SplitN(l, "=", 2)`: split at the first occurrence of
`=`, returning `none` when there is no `=` (one part). -/
def splitN2Eq : List Char → Option (List Char × List Char)
  | [] => none
  | c :: rest =>
    if c = '=' then some ([], rest)
    else match splitN2Eq rest with
      | none => none
      | some (before, after) => some (c :: before, after)

/-- Go `strconv.Atoi` with the error ignored: a syntactically invalid
input yields 0, exactly the value the source keeps after discarding the
error. -/
def goAtoi (s : String) : Int :=
  let digitsVal : List Char → Nat := fun ds =>
    ds.foldl (fun acc c => acc * 10 + (c.toNat - '0'.toNat)) 0
  match s.data with
  | [] => 0
  | '+' :: ds => if ds ≠ [] ∧ ds.all Char.isDigit then digitsVal ds else 0
  | '-' :: ds => if ds ≠ [] ∧ ds.all Char.isDigit then -(digitsVal ds : Int) else 0
  | ds => if ds.all Char.isDigit then digitsVal ds else 0

/-! ## Generic scan-and-replace engine

Models `regexp.ReplaceAllString` for the concrete RE2 patterns used by the
source: the text is scanned left to right, at each position the pattern is
tried (each concrete pattern below matches deterministically, consuming at
least one character), a match emits its replacement and scanning resumes
after the consumed text, a failure emits the current character and
advances one position.  The fuel argument is the input length, which
bounds the recursion because every match consumes at least one
character. -/

def replaceScanAux (m : List Char → Option (List Char × List Char)) :
    Nat → List Char → List Char
  | _, [] => []
  | 0, l => l
  | fuel + 1, c :: rest =>
    match m (c :: rest) with
    | some (repl, rest2) => repl ++ replaceScanAux m fuel rest2
    | none => c :: replaceScanAux m fuel rest

/-- Run a matcher over the whole input (see `replaceScanAux`). -/
def replaceScan (m : List Char → Option (List Char × List Char)) (l : List Char) :
    List Char :=
  replaceScanAux m l.length l

/-- Maximal run of characters satisfying `p`, requiring at least one
(models a greedy `X+` character-class repetition). -/
def takeRun1 (p : Char → Bool) (l : List Char) : Option (List Char × List Char) :=
  match l.takeWhile p, l.dropWhile p with
  | [], _ => none
  | run, rest => some (run, rest)

/-- Go `strings.ReplaceAll` with a non-empty literal pattern, as a
matcher for `replaceScan`. -/
def litMatch (pat repl : List Char) (l : List Char) : Option (List Char × List Char) :=
  match dropLit pat l with
  | some rest => some (repl, rest)
  | none => none

/-! ## Markdown converter cleanup (internal/wiki/markdown part of cache.go)

`cleanupMarkdown` in the source is
`regexp.MustCompile("\n{3,}").ReplaceAllString(md, "\n\n")` followed by
`strings.TrimSpace`.  The regex replaces every maximal run of three or
more newlines by two newlines; `collapseNLAux` performs exactly that
scan, carrying the number of pending consecutive newlines. -/

def emitNL (pending : Nat) : List Char :=
  List.replicate (if 3 ≤ pending then 2 else pending) '\n'

def collapseNLAux : List Char → Nat → List Char
  | [], pending => emitNL pending
  | c :: rest, pending =>
    if c = '\n' then collapseNLAux rest (pending + 1)
    else emitNL pending ++ c :: collapseNLAux rest 0

/-- The `\n{3,}` → `\n\n` replacement of `cleanupMarkdown`. -/
def collapseNL (l : List Char) : List Char := collapseNLAux l 0

/-- Source `cleanupMarkdown`: collapse newline runs, then trim. -/
def cleanupMarkdown (l : List Char) : List Char := goTrimSpaceL (collapseNL l)

/-- Source `cleanupMarkdown` on `String`. -/
def cleanupMarkdownS (s : String) : String := ⟨cleanupMarkdown s.data⟩

/-- Decides that no run of 3 or more consecutive newlines occurs, given
that `run` newlines immediately precede the remaining input. -/
def maxNLRunBounded : List Char → Nat → Bool
  | [], _ => true
  | c :: rest, run =>
    if c = '\n' then decide (run + 1 < 3) && maxNLRunBounded rest (run + 1)
    else maxNLRunBounded rest 0

/-! ## Word counting and previews (cache.go: stripMarkdownFormatting,
CountWords, ExtractPreview) -/

/-- Matcher for `\*+` (replaced by the empty string). -/
def starRunMatch (l : List Char) : Option (List Char × List Char) :=
  match takeRun1 (· = '*') l with
  | some (_, rest) => some ([], rest)
  | none => none

/-- Matcher for the markdown link pattern found in the source,
`\[([^\]]+)\]\([^\)]+\)`, replaced by the display text `$1`. -/
def mdLinkMatch (l : List Char) : Option (List Char × List Char) :=
  match l with
  | '[' :: r1 =>
    match takeRun1 (· ≠ ']') r1 with
    | some (txt, ']' :: '(' :: r3) =>
      match takeRun1 (· ≠ ')') r3 with
      | some (_, ')' :: r5) => some (txt, r5)
      | _ => none
    | _ => none
  | _ => none

/-- The anchored replacement `^#+\s+` → `""`: without a multiline flag,
RE2 `^` matches only the start of the text, so at most the leading
heading marker is removed. -/
def stripLeadingHeading (l : List Char) : List Char :=
  match takeRun1 (· = '#') l with
  | some (_, rest) =>
    match takeRun1 isRE2Space rest with
    | some (_, rest2) => rest2
    | none => l
  | none => l

/-- Matcher for fenced code blocks, `` ```[^`]*``` `` → `""`. -/
def fencedCodeMatch (l : List Char) : Option (List Char × List Char) :=
  match dropLit (lit "```") l with
  | some r1 =>
    match dropLit (lit "```") (r1.dropWhile (· ≠ '`')) with
    | some r2 => some ([], r2)
    | none => none
  | none => none

/-- Matcher for inline code, `` `[^`]+` `` → `""`. -/
def inlineCodeMatch (l : List Char) : Option (List Char × List Char) :=
  match l with
  | '`' :: r1 =>
    match takeRun1 (· ≠ '`') r1 with
    | some (_, '`' :: r3) => some ([], r3)
    | _ => none
  | _ => none

/-- Source `stripMarkdownFormatting`: the four regex replacements in
source order (bold and italic markers, links collapsed to display text,
a leading heading marker, fenced code blocks, inline code). -/
def stripMarkdownFormatting (l : List Char) : List Char :=
  let l := replaceScan starRunMatch l
  let l := replaceScan mdLinkMatch l
  let l := stripLeadingHeading l
  let l := replaceScan fencedCodeMatch l
  replaceScan inlineCodeMatch l

/-- Source `CountWords`: strip markdown, then count whitespace-delimited
tokens. -/
def countWords (l : List Char) : Nat := (goFields (stripMarkdownFormatting l)).length

/-- Source `CountWords` on `String`. -/
def countWordsS (s : String) : Nat := countWords s.data

/-- Source `ExtractPreview`: strip markdown, keep the first `maxWords`
whitespace-delimited tokens, and append an ellipsis only when the text
was actually truncated. -/
def extractPreview (l : List Char) (maxWords : Nat) : List Char :=
  let words := goFields (stripMarkdownFormatting l)
  if words.length ≤ maxWords then joinSpace words
  else joinSpace (words.take maxWords) ++ lit "..."

/-- Source `ExtractPreview` on `String`. -/
def extractPreviewS (s : String) (maxWords : Nat) : String := ⟨extractPreview s.data maxWords⟩

/-! ## Link extraction (cache.go: ExtractLinks, extractTitleFromHref,
decodeTitle)

The goquery HTML parse is an external library; its output, the sequence
of anchor elements in document order with their optional `href`
attributes, is the input of the embedded functions.  Everything from the
`href` strings onward is source logic and is embedded faithfully. -/

/-- Source `decodeTitle`: underscores become spaces (note: the source
performs no percent-decoding). -/
def decodeTitle (l : List Char) : List Char :=
  l.map (fun c => if c = '_' then ' ' else c)

/-- Source `extractTitleFromHref`: recognise `/wiki/<Title>` paths and
`title=` query strings, cut at `&` and `#`, and decode underscores. -/
def extractTitleFromHref (href : List Char) : List Char :=
  if (lit "/wiki/").isPrefixOf href then
    let t := href.drop (lit "/wiki/").length
    decodeTitle (t.takeWhile (· ≠ '#'))
  else
    match afterSub (lit "title=") href with
    | some t1 =>
      let t2 := takeBeforeSub (lit "title=") t1
      decodeTitle ((t2.takeWhile (· ≠ '&')).takeWhile (· ≠ '#'))
    | none => []

/-- Source `extractTitleFromHref` on `String`. -/
def extractTitleFromHrefS (href : String) : String := ⟨extractTitleFromHref href.data⟩

/-- The anchor loop of source `ExtractLinks`: anchors without an `href`
and hrefs yielding an empty title contribute nothing, and titles already
collected are skipped (the `seen` set holds exactly the collected
titles). -/
def extractLinksAux : List (Option String) → List String → List String
  | [], links => links
  | none :: rest, links => extractLinksAux rest links
  | some href :: rest, links =>
    let title := extractTitleFromHrefS href
    if title = "" then extractLinksAux rest links
    else if title ∈ links then extractLinksAux rest links
    else extractLinksAux rest (links ++ [title])

/-- Source `ExtractLinks`, taking the anchor hrefs delivered by the HTML
parser in document order. -/
def ExtractLinks (anchors : List (Option String)) : List String :=
  extractLinksAux anchors []

/-- Modelled from the spec: the titles of the anchors that resolve to a
non-empty page title, in document order, before deduplication. -/
def resolvedTitles (anchors : List (Option String)) : List String :=
  ((anchors.filterMap id).map extractTitleFromHrefS).filter (· ≠ "")

/-- Modelled from the spec: first-appearance deduplication with an
explicit set of already-seen values. -/
def dedupFirstAux : List String → List String → List String
  | [], _ => []
  | t :: rest, seen =>
    if t ∈ seen then dedupFirstAux rest seen
    else t :: dedupFirstAux rest (t :: seen)

/-- Modelled from the spec: keep the first occurrence of each value. -/
def dedupFirst (l : List String) : List String := dedupFirstAux l []

/-! ## Infobox extractor (wiki/infobox.go: ExtractInfobox,
cleanInfoboxValue, cleanCommonTemplates)

The extraction regex is `(?s)\{\{Infobox[^\}]*?\n(.*?)\n\}\}`: at the
leftmost feasible start, the lazy `[^\}]*?\n` takes the characters up to
the first newline (all of which must differ from `}`), and the lazy
`(.*?)\n\}\}` captures the characters up to the first later occurrence
of a newline followed by `}}`. -/

/-- The single-quote character, used by wikitext bold and italic
markup. -/
def apos : Char := Char.ofNat 39

/-- After `\{\{Infobox`, consume `[^\}]*?\n`: succeed at the first
newline provided no `}` precedes it. -/
def infoboxHeaderRest : List Char → Option (List Char)
  | [] => none
  | c :: rest =>
    if c = '\n' then some rest
    else if c = '}' then none
    else infoboxHeaderRest rest

/-- Capture `(.*?)` before the first occurrence of `\n\}\}`. -/
def contentBeforeClose : List Char → Option (List Char)
  | [] => none
  | c :: rest =>
    if c = '\n' ∧ (lit "\x7d\x7d").isPrefixOf rest then some []
    else
      match contentBeforeClose rest with
      | some tail => some (c :: tail)
      | none => none

/-- Try the whole infobox regex anchored at the current position. -/
def infoboxMatchAt (l : List Char) : Option (List Char) :=
  match dropLit (lit "\x7b\x7bInfobox") l with
  | none => none
  | some r1 =>
    match infoboxHeaderRest r1 with
    | none => none
    | some r2 => contentBeforeClose r2

/-- `FindStringSubmatch`: the captured infobox body at the leftmost
position where the whole pattern matches. -/
def findInfoboxContent : List Char → Option (List Char)
  | [] => none
  | c :: rest =>
    match infoboxMatchAt (c :: rest) with
    | some content => some content
    | none => findInfoboxContent rest

/-- Go map assignment `result[k] = v` on an insertion-ordered
association list. -/
def mapSet (m : List (String × String)) (k v : String) : List (String × String) :=
  if m.any (fun kv => kv.1 == k) then
    m.map (fun kv => if kv.1 == k then (k, v) else kv)
  else m ++ [(k, v)]

/-- Go map lookup `m[k]`. -/
def mapGet (m : List (String × String)) (k : String) : Option String :=
  match m.find? (fun kv => kv.1 == k) with
  | some kv => some kv.2
  | none => none

/-- Matcher for `\{\{birth date\|(\d+)\|(\d+)\|(\d+)[^\}]*\}\}` (and the
identical death-date pattern), replaced by `$1-$2-$3`. -/
def dateTemplateMatch (name : List Char) (l : List Char) :
    Option (List Char × List Char) :=
  match dropLit (lit "\x7b\x7b" ++ name ++ [ '|' ]) l with
  | none => none
  | some r1 =>
    match takeRun1 Char.isDigit r1 with
    | some (d1, '|' :: r2) =>
      match takeRun1 Char.isDigit r2 with
      | some (d2, '|' :: r3) =>
        match takeRun1 Char.isDigit r3 with
        | some (d3, r4) =>
          match dropLit (lit "\x7d\x7d") (r4.dropWhile (· ≠ '}')) with
          | some r5 => some (d1 ++ '-' :: d2 ++ '-' :: d3, r5)
          | none => none
        | _ => none
      | _ => none
    | _ => none

/-- Matcher for `\{\{NAME\|([^\}]+)\}\}` templates; the replacement is
built from the captured group. -/
def namedTemplateMatch (name : List Char) (repl : List Char → List Char)
    (l : List Char) : Option (List Char × List Char) :=
  match dropLit (lit "\x7b\x7b" ++ name ++ [ '|' ]) l with
  | none => none
  | some r1 =>
    match takeRun1 (· ≠ '}') r1 with
    | some (grp, rest) =>
      match dropLit (lit "\x7d\x7d") rest with
      | some r2 => some (repl grp, r2)
      | none => none
    | none => none

/-- Matcher for the generic template strip `\{\{[^\}]+\}\}` → `""`. -/
def templateMatch (l : List Char) : Option (List Char × List Char) :=
  match dropLit (lit "\x7b\x7b") l with
  | none => none
  | some r1 =>
    match takeRun1 (· ≠ '}') r1 with
    | some (_, rest) =>
      match dropLit (lit "\x7d\x7d") rest with
      | some r2 => some ([], r2)
      | none => none
    | none => none

/-- Matcher for the HTML tag strip `<[^>]+>` → `""`. -/
def htmlTagMatch (l : List Char) : Option (List Char × List Char) :=
  match l with
  | '<' :: r1 =>
    match takeRun1 (· ≠ '>') r1 with
    | some (_, '>' :: r3) => some ([], r3)
    | _ => none
  | _ => none

/-- Matcher for the wiki link pattern
`\[\[([^\|\]]+)(?:\|([^\]]+))?\]\]`: `[[Target]]` becomes `Target` and
`[[Target|Display]]` becomes `Display`. -/
def wikiLinkMatch (l : List Char) : Option (List Char × List Char) :=
  match dropLit (lit "[[") l with
  | none => none
  | some r1 =>
    match takeRun1 (fun c => ¬ (c = '|' ∨ c = ']')) r1 with
    | some (target, ']' :: ']' :: r3) => some (target, r3)
    | some (_, '|' :: r3) =>
      match takeRun1 (· ≠ ']') r3 with
      | some (display, ']' :: ']' :: r5) => some (display, r5)
      | _ => none
    | _ => none

/-- Matcher for the whitespace collapse `\s+` → `" "`. -/
def wsRunMatch (l : List Char) : Option (List Char × List Char) :=
  match takeRun1 isRE2Space l with
  | some (_, rest) => some ([ ' ' ], rest)
  | none => none

/-- Source `cleanCommonTemplates`: the six template rewrites in source
order (birth date, death date, age, circa, flag, coord). -/
def cleanCommonTemplates (v : List Char) : List Char :=
  let v := replaceScan (dateTemplateMatch (lit "birth date")) v
  let v := replaceScan (dateTemplateMatch (lit "death date")) v
  let v := replaceScan (namedTemplateMatch (lit "age") (fun _ => [])) v
  let v := replaceScan (namedTemplateMatch (lit "circa") (fun g => lit "circa " ++ g)) v
  let v := replaceScan (namedTemplateMatch (lit "flag") (fun g => g)) v
  replaceScan (namedTemplateMatch (lit "coord") (fun _ => [])) v

/-- Source `cleanInfoboxValue`: trim, resolve wiki links, rewrite common
templates, strip remaining templates and HTML tags, drop bold and italic
markup, trim and collapse whitespace, in source order. -/
def cleanInfoboxValue (v : List Char) : List Char :=
  let v := goTrimSpaceL v
  let v := replaceScan wikiLinkMatch v
  let v := cleanCommonTemplates v
  let v := replaceScan templateMatch v
  let v := replaceScan htmlTagMatch v
  let v := replaceScan (litMatch (List.replicate 3 apos) []) v
  let v := replaceScan (litMatch (List.replicate 2 apos) []) v
  let v := goTrimSpaceL v
  replaceScan wsRunMatch v

/-- Value of `cleanInfoboxValue` on `String` (the builder contents). -/
def cleanInfoboxValueS (s : String) : String := ⟨cleanInfoboxValue s.data⟩

/-- The line loop of source `ExtractInfobox`, carrying the current key,
the current value builder and the result map. -/
def parseInfoboxLines : List (List Char) → String → String → List (String × String) →
    List (String × String)
  | [], curKey, curVal, result =>
    if curKey ≠ "" then mapSet result curKey (cleanInfoboxValueS curVal) else result
  | rawLine :: rest, curKey, curVal, result =>
    let line := goTrimSpaceL rawLine
    if line = [] then parseInfoboxLines rest curKey curVal result
    else
      match line with
      | '|' :: lineRest =>
        let result2 :=
          if curKey ≠ "" then mapSet result curKey (cleanInfoboxValueS curVal) else result
        match splitN2Eq lineRest with
        | some (before, after) =>
          parseInfoboxLines rest ⟨goTrimSpaceL before⟩ ⟨goTrimSpaceL after⟩ result2
        | none =>
          if curKey ≠ "" then
            parseInfoboxLines rest curKey (curVal ++ " " ++ ⟨lineRest⟩) result2
          else parseInfoboxLines rest curKey curVal result2
      | _ =>
        if curKey ≠ "" then
          parseInfoboxLines rest curKey (curVal ++ " " ++ ⟨line⟩) result
        else parseInfoboxLines rest curKey curVal result

/-- Source `ExtractInfobox`: locate the first infobox template body and
parse its line-oriented `|key = value` pairs; `none` both when no
infobox template matches and when the parsed map is empty. -/
def ExtractInfobox (wikitext : String) : Option (List (String × String)) :=
  match findInfoboxContent wikitext.data with
  | none => none
  | some content =>
    let result := parseInfoboxLines (splitChar '\n' content) "" "" []
    if result = [] then none else some result

/-! ## Section trees (wiki/types.go: Section, MWSection;
tools/page.go: buildSectionsTree; tools/section.go: flattenSections,
GetPageSection, SectionNotFoundError)

The Go builder mutates sections through pointers: a new section is
attached to the section below it on the stack at push time, and later
children are added through the retained pointer.  The functional
embedding attaches a section to its parent when it is popped instead,
which yields the same tree: while a section sits on the stack the stack
below it never changes, so the element below it at pop time is exactly
the stack top it was attached to at push time, and a section receives no
further children after it is popped.  Completed top-level sections are
emitted when the element at the bottom of the stack is popped, which
happens in push order. -/

structure MWSection where
  tocLevel : Int
  level : String
  line : String
  number : String
  index : String

structure Section where
  index : Int
  title : String
  level : Int
  preview : String
  content : String
  links : List String
  wordCount : Nat
  subsections : List Section

/-- The synthetic lead section prepended by `buildSectionsTree`. -/
def leadSection (leadContent : String) : Section :=
  { index := 0, title := "Lead", level := 1
    preview := extractPreviewS leadContent 50
    content := "", links := []
    wordCount := countWordsS leadContent, subsections := [] }

/-- The section constructed for one flat table-of-contents entry (the
loop body of `buildSectionsTree`): the level is `TocLevel + 1` because
the lead occupies level 1, and preview and word count are left empty. -/
def mkSection (m : MWSection) : Section :=
  { index := goAtoi m.index, title := m.line, level := m.tocLevel + 1
    preview := "", content := "", links := [], wordCount := 0, subsections := [] }

/-- Pop stack entries whose level is `≥ lvl` (stack top first in the
list).  Each popped entry becomes the last child of the entry below it;
an entry popped with nothing below is a completed top-level section.
Returns the remaining stack and the completed top-level sections.  The
fuel is the stack length; each step shortens the stack by one. -/
def stackPopFuel (lvl : Int) : Nat → List Section → List Section × List Section
  | _, [] => ([], [])
  | 0, stack => (stack, [])
  | fuel + 1, s :: rest =>
    if lvl ≤ s.level then
      match rest with
      | [] => ([], [s])
      | p :: rest2 =>
        stackPopFuel lvl fuel ({ p with subsections := p.subsections ++ [s] } :: rest2)
    else (s :: rest, [])

/-- Pop stack entries with level `≥ lvl` (see `stackPopFuel`). -/
def stackPop (lvl : Int) (stack : List Section) : List Section × List Section :=
  stackPopFuel lvl stack.length stack

/-- Collapse the remaining stack at the end of the walk: each entry
becomes the last child of the entry below; the bottom entry is the final
completed top-level section. -/
def stackFlushFuel : Nat → List Section → List Section
  | _, [] => []
  | 0, _ => []
  | _ + 1, [s] => [s]
  | fuel + 1, s :: p :: rest2 =>
    stackFlushFuel fuel ({ p with subsections := p.subsections ++ [s] } :: rest2)

/-- Collapse the remaining stack (see `stackFlushFuel`). -/
def stackFlush (stack : List Section) : List Section :=
  stackFlushFuel stack.length stack

/-- One iteration of the `buildSectionsTree` loop over the accumulated
pair (completed top-level sections, stack). -/
def buildStep (acc : List Section × List Section) (m : MWSection) :
    List Section × List Section :=
  let sec := mkSection m
  let (stack2, tops2) := stackPop sec.level acc.2
  (acc.1 ++ tops2, sec :: stack2)

/-- Source `buildSectionsTree`: empty input yields an empty list;
otherwise the synthetic lead section followed by the stack-built
hierarchy of the flat table-of-contents entries.  The `wikiURL` and
`title` arguments are unused, as in the source. -/
def buildSectionsTree (mwSections : List MWSection) (wikiURL title leadContent : String) :
    List Section :=
  match mwSections with
  | [] => []
  | _ =>
    let folded := mwSections.foldl buildStep ([], [])
    leadSection leadContent :: (folded.1 ++ stackFlush folded.2)

/-- Source `flattenSections`: depth-first pre-order flattening of the
section tree. -/
def flattenSections : List Section → List Section
  | [] => []
  | s :: rest => s :: (flattenSections s.subsections ++ flattenSections rest)
termination_by l => sizeOf l
decreasing_by
  all_goals cases p
  all_goals simp
  all_goals omega

/-- Source `countSubsectionWords`: for every direct subsection, add its
word count and, recursively, the word count of its descendants. -/
def countSubWordsList : List Section → Nat
  | [] => 0
  | sub :: rest => sub.wordCount + countSubWordsList sub.subsections + countSubWordsList rest
termination_by l => sizeOf l
decreasing_by
  all_goals cases p
  all_goals simp
  all_goals omega

/-- Source `countSubsectionWords`. -/
def countSubsectionWords (s : Section) : Nat := countSubWordsList s.subsections

/-- Source `SectionNotFoundError`: the requested index together with the
number of flattened sections found. -/
structure SectionNotFoundError where
  sectionIndex : Int
  availableSections : Nat
deriving DecidableEq

/-- The target together with the parent, previous and next sections
resolved by `GetPageSection`. -/
structure SectionContext where
  target : Section
  parent : Option Section
  prev : Option Section
  next : Option Section

/-- The pure core of source `GetPageSection` (lines 32 to 66): flatten
the outline, scan for the first section whose index matches, resolve the
parent as the nearest preceding flattened element of strictly lower
level and the adjacent sections as the flattened neighbours; fail with a
`SectionNotFoundError` when no section matches.  `findMatchPos` is the
index-matching scan of the `for i, sec := range flatSections` loop. -/
def findMatchPos (sectionIndex : Int) : List Section → Nat → Option Nat
  | [], _ => none
  | s :: rest, i =>
    if s.index == sectionIndex then some i else findMatchPos sectionIndex rest (i + 1)

def findSectionContext (sections : List Section) (sectionIndex : Int) :
    Except SectionNotFoundError SectionContext :=
  let flat := flattenSections sections
  match findMatchPos sectionIndex flat 0 with
  | none => .error ⟨sectionIndex, flat.length⟩
  | some i =>
    match flat[i]? with
    | none => .error ⟨sectionIndex, flat.length⟩
    | some target =>
      .ok { target := target
            parent := ((flat.take i).reverse).find? (fun s => decide (s.level < target.level))
            prev := if 0 < i then flat[i - 1]? else none
            next := flat[i + 1]? }

/-! ## TTL cache (cache.go: Cache, Get, Set, Delete, cleanup, CacheKey)

Go `time.Time` instants and `time.Duration` values are modelled as `Int`
nanosecond counts; `time.Now()` becomes an explicit `now` argument.  The
item map is an association list in which the most recent binding for a
key shadows older ones, matching Go map assignment. -/

structure CacheItem (α : Type) where
  value : α
  expiration : Int

/-- The item map of the source `Cache`. -/
abbrev CacheState (α : Type) : Type := List (String × CacheItem α)

/-- Source `Cache.Set`: store the value with expiration `now + ttl`. -/
def cacheSet {α : Type} (c : CacheState α) (key : String) (v : α) (ttl now : Int) :
    CacheState α :=
  (key, ⟨v, now + ttl⟩) :: c

/-- Source `Cache.Get`: absent keys and entries whose expiration instant
has strictly passed (`time.Now().After(expiration)`) read as misses. -/
def cacheGet {α : Type} (c : CacheState α) (key : String) (now : Int) : Option α :=
  match c.find? (fun kv => kv.1 == key) with
  | none => none
  | some kv => if kv.2.expiration < now then none else some kv.2.value

/-- Source `Cache.Delete`. -/
def cacheDelete {α : Type} (c : CacheState α) (key : String) : CacheState α :=
  c.filter (fun kv => !(kv.1 == key))

/-- Source `Cache.cleanup` (the body of the background sweep): remove
every entry whose expiration instant has passed. -/
def cacheCleanup {α : Type} (c : CacheState α) (now : Int) : CacheState α :=
  c.filter (fun kv => !(decide (kv.2.expiration < now)))

/-- Source `CacheKey`: join the parts with `":"`, no escaping. -/
def CacheKey (parts : List String) : String :=
  match parts with
  | [] => ""
  | p :: rest => rest.foldl (fun acc q => acc ++ ":" ++ q) p

/-- Source `PageCacheKey`. -/
def PageCacheKey (wikiURL title : String) : String := CacheKey ["page", wikiURL, title]

/-- Source `SectionCacheKey`. -/
def SectionCacheKey (wikiURL title sectionIndex : String) : String :=
  CacheKey ["section", wikiURL, title, sectionIndex]

/-- Source `SearchCacheKey`. -/
def SearchCacheKey (wikiURL query : String) : String := CacheKey ["search", wikiURL, query]

/-- Source `InfoCacheKey`. -/
def InfoCacheKey (wikiURL : String) : String := CacheKey ["info", wikiURL]

/-- Source `CategoryCacheKey`. -/
def CategoryCacheKey (wikiURL category : String) : String :=
  CacheKey ["category", wikiURL, category]

/-- Source `BacklinksCacheKey`. -/
def BacklinksCacheKey (wikiURL title : String) : String :=
  CacheKey ["backlinks", wikiURL, title]

/-! ## Durations (Go `time` package constants, in nanoseconds) -/

def goSecond : Int := 1000000000

def goMinute : Int := 60 * goSecond

/-- The TTL value passed by source `SearchWiki` when storing the
assembled response: `client.GetCache().Set(cacheKey, searchResp, 1*60)`.
The untyped constant `1*60` converts to `time.Duration(60)`, i.e. 60
nanoseconds, although the adjacent comment reads `// 1 minute`. -/
def searchStoreTTL : Int := 1 * 60

/-! ## Content assembler (tools/category.go: GetCategory;
tools/page.go: GetPageOutline, extractSeeAlsoLinks)

Network fetches are suspension points: each embedded operation takes the
results its fetches would deliver as explicit `Except` inputs, and the
two external library calls of the outline path (the html-to-markdown
converter and the goquery anchor scan) as oracle functions.  The cache
consultation at the top of each operation is not modelled; the embedded
functions describe the cache-miss path that assembles a fresh
response. -/

/-- Errors are carried as their message strings. -/
abbrev GoError : Type := String

structure MWCategoryMember where
  pageID : Int
  title : String
  mtype : String

/-- The part of the `query` envelope used by `GetCategory`. -/
structure MWQueryCat where
  categorymembers : List MWCategoryMember

structure CategoryMember where
  title : String
  mtype : String

structure CategoryResponse where
  category : String
  members : List CategoryMember
  parentCategories : List String
  totalMembers : Nat

/-- Source `GetCategory` after the cache probe: ensure the
`Category:` title, map the member list (`subcat` members keep
their type, everything else becomes `page`), resolve parent categories
with failure swallowed into an empty list, and assemble the response. -/
def GetCategory (queryResp : Except GoError (Option MWQueryCat))
    (parentsResult : Except GoError (List String)) (category : String) :
    Except GoError CategoryResponse :=
  let category :=
    if (lit "Category:").isPrefixOf category.data then category
    else "Category:" ++ category
  match queryResp with
  | .error e => .error ("get category: " ++ e)
  | .ok none => .error "empty query response"
  | .ok (some q) =>
    let members := q.categorymembers.map (fun m =>
      { title := m.title
        mtype := if m.mtype = "subcat" then "subcat" else "page" : CategoryMember })
    let parentCategories :=
      match parentsResult with
      | .ok ps => ps
      | .error _ => []
    .ok { category := goTrimLeadS "Category:" category
          members := members
          parentCategories := parentCategories
          totalMembers := members.length }

structure MWText where
  content : String

structure MWCategoryTitle where
  title : String

structure MWLink where
  title : String

/-- The part of the `parse` envelope used by `GetPageOutline`. -/
structure MWParse where
  title : String
  text : MWText
  sections : List MWSection
  categories : List MWCategoryTitle
  links : List MWLink

structure MWParseResponse where
  parse : Option MWParse

structure PageOutline where
  title : String
  pageExists : Bool
  summary : String
  summaryLinks : List String
  infobox : Option (List (String × String))
  sections : List Section
  categories : List String
  seeAlso : List String
  totalWordCount : Nat

/-- Source `extractSeeAlsoLinks`: drop meta-namespace titles, skip
duplicates (the `seen` set holds exactly the collected titles), stop
after the tenth collected title. -/
def extractSeeAlsoAux : List MWLink → List String → List String
  | [], acc => acc
  | l :: rest, acc =>
    if (lit "Category:").isPrefixOf l.title.data
        ∨ (lit "File:").isPrefixOf l.title.data
        ∨ (lit "Wikipedia:").isPrefixOf l.title.data
        ∨ (lit "Template:").isPrefixOf l.title.data
        ∨ (lit "Help:").isPrefixOf l.title.data then
      extractSeeAlsoAux rest acc
    else if l.title ∈ acc then extractSeeAlsoAux rest acc
    else
      let acc2 := acc ++ [l.title]
      if 10 ≤ acc2.length then acc2 else extractSeeAlsoAux rest acc2

/-- Source `extractSeeAlsoLinks`. -/
def extractSeeAlsoLinks (links : List MWLink) : List String :=
  extractSeeAlsoAux links []

/-- The inputs of one `GetPageOutline` call: the two parse fetches, the
result of the raw wikitext fetch (`getPageWikitext`), the external
html-to-markdown converter, and the external goquery anchor scan feeding
`ExtractLinks`. -/
structure OutlineEnv where
  structResp : Except GoError MWParseResponse
  leadResp : Except GoError MWParseResponse
  wikitextResult : Except GoError String
  convertString : String → Except GoError String
  htmlAnchors : String → List (Option String)

/-- Source `HTMLToMarkdown`: run the converter, then `cleanupMarkdown`. -/
def HTMLToMarkdown (convertString : String → Except GoError String) (html : String) :
    Except GoError String :=
  match convertString html with
  | .error e => .error e
  | .ok markdown => .ok (cleanupMarkdownS markdown)

/-- Source `ExtractLinks` on raw HTML: the goquery parse delivers the
anchor hrefs in document order, the source loop resolves and
deduplicates them. -/
def ExtractLinksHTML (htmlAnchors : String → List (Option String)) (html : String) :
    List String :=
  ExtractLinks (htmlAnchors html)

/-- Source `GetPageOutline` after the cache probe: fetch the structure
skeleton and the lead section, convert the lead to markdown, build the
section tree, strip the `Category:` namespace from category names,
derive `seeAlso` heuristically, total the word counts, and attach the
infobox only when the wikitext fetch succeeded (its failure is
non-fatal).  In the source a `nil` lead parse would be dereferenced; it
is modelled as an error. -/
def GetPageOutline (env : OutlineEnv) (wikiURL title : String) :
    Except GoError PageOutline :=
  match env.structResp with
  | .error e => .error ("get page outline: " ++ e)
  | .ok resp =>
    match resp.parse with
    | none => .error "empty parse response"
    | some p =>
      match env.leadResp with
      | .error e => .error ("get lead section: " ++ e)
      | .ok leadResp =>
        match leadResp.parse with
        | none => .error "nil lead parse"
        | some leadParse =>
          match HTMLToMarkdown env.convertString leadParse.text.content with
          | .error e => .error ("convert lead to markdown: " ++ e)
          | .ok leadMarkdown =>
            let summaryLinks := ExtractLinksHTML env.htmlAnchors leadParse.text.content
            let summary := extractPreviewS leadMarkdown 100
            let sections := buildSectionsTree p.sections wikiURL title leadMarkdown
            let categories := p.categories.map (fun c => goTrimLeadS "Category:" c.title)
            let seeAlso := extractSeeAlsoLinks p.links
            let totalWords := countWordsS leadMarkdown +
              (sections.map (fun s => s.wordCount + countSubsectionWords s)).sum
            let infobox :=
              match env.wikitextResult with
              | .ok wikitext => ExtractInfobox wikitext
              | .error _ => none
            .ok { title := p.title
                  pageExists := true
                  summary := summary
                  summaryLinks := summaryLinks
                  infobox := infobox
                  sections := sections
                  categories := categories
                  seeAlso := seeAlso
                  totalWordCount := totalWords }

/-! ## Theorems -/

/-- C10: `CacheKey` joins its parts with a bare `":"` and performs no
escaping, so it is not injective: the distinct part sequences `["a:b"]`
and `["a", "b"]` produce the same key, and two distinct requests whose
title or section index contain `":"` alias to the same section cache
entry. -/
theorem c10_cache_key_not_injective :
    CacheKey ["a:b"] = CacheKey ["a", "b"]
    ∧ (["a:b"] : List String) ≠ ["a", "b"]
    ∧ SectionCacheKey "https://w" "Go:1" "2" = SectionCacheKey "https://w" "Go" "1:2"
    ∧ ("Go:1", "2") ≠ ("Go", "1:2") := by
  refine ⟨rfl, by decide, rfl, by decide⟩

/-- C4 (failing): the TTL passed by `SearchWiki` when storing a search
response is the untyped constant `1*60`, which as a `time.Duration` is
60 nanoseconds, not the 1 minute announced by the adjacent comment; a
repeat of the same search one second later (well within 1 minute)
already misses the cache. -/
theorem c4_search_ttl_is_nanoseconds :
    searchStoreTTL = 60
    ∧ searchStoreTTL ≠ goMinute
    ∧ cacheGet
        (cacheSet ([] : CacheState Nat) (SearchCacheKey "https://w" "go:10") 1
          searchStoreTTL 0)
        (SearchCacheKey "https://w" "go:10") goSecond = none := by
  refine ⟨rfl, by decide, by decide⟩

/-- C3 counterexample: on the empty flat section list
`buildSectionsTree` returns the empty list, so no synthetic lead section
is present, contrary to the claim that the lead is prepended for every
input including the empty list. -/
theorem c3_counterexample_empty_input :
    buildSectionsTree [] "https://w" "Title" "lead text" = [] := rfl

/-- C3 (amended): for every non-empty input flat section list, the list
produced by `buildSectionsTree` has the synthetic lead section (index 0,
level 1, title "Lead") as its first element; for the empty input the
result is the empty list. -/
theorem c3_lead_always_first (ms : List MWSection) (wikiURL title leadContent : String)
    (h : ms ≠ []) :
    ∃ rest, buildSectionsTree ms wikiURL title leadContent =
        leadSection leadContent :: rest
      ∧ (leadSection leadContent).index = 0
      ∧ (leadSection leadContent).title = "Lead"
      ∧ (leadSection leadContent).level = 1 := by
  match ms, h with
  | m :: ms2, _ => exact ⟨_, rfl, rfl, rfl, rfl⟩

/-- C3 witness: the amended statement at a concrete one-entry input. -/
theorem c3_lead_always_first_witness :
    ∃ rest, buildSectionsTree [⟨1, "2", "History", "1", "1"⟩] "https://w" "T" "lead" =
        leadSection "lead" :: rest
      ∧ (leadSection "lead").index = 0
      ∧ (leadSection "lead").title = "Lead"
      ∧ (leadSection "lead").level = 1 :=
  c3_lead_always_first [⟨1, "2", "History", "1", "1"⟩] "https://w" "T" "lead"
    (List.cons_ne_nil _ _)

/-- C6: after `Set(key, value, ttl)` at instant `now`, `Get` returns the
value at any instant strictly before `now + ttl` and misses at any
instant strictly after `now + ttl` even though no sweep ran; `Get` of a
key never set also misses. -/
theorem c6_cache_ttl_semantics {α : Type} (c : CacheState α) (key : String) (v : α)
    (ttl now t : Int) :
    (t < now + ttl → cacheGet (cacheSet c key v ttl now) key t = some v)
    ∧ (now + ttl < t → cacheGet (cacheSet c key v ttl now) key t = none)
    ∧ (∀ (c2 : CacheState α) (k2 : String) (t2 : Int),
        (∀ kv ∈ c2, kv.1 ≠ k2) → cacheGet c2 k2 t2 = none) := by
  refine ⟨?_, ?_, ?_⟩
  · intro h
    simp only [cacheGet, cacheSet, List.find?, beq_self_eq_true]
    rw [if_neg (by omega)]
  · intro h
    simp only [cacheGet, cacheSet, List.find?, beq_self_eq_true]
    rw [if_pos (by omega)]
  · intro c2 k2 t2 hall
    have : c2.find? (fun kv => kv.1 == k2) = none := by
      rw [List.find?_eq_none]
      intro kv hmem
      simpa using hall kv hmem
    simp [cacheGet, this]

/-- C6 witness: the cache semantics at a concrete key, value, TTL and
pair of read instants. -/
theorem c6_cache_ttl_semantics_witness :
    cacheGet (cacheSet ([] : CacheState Nat) "k" 7 100 0) "k" 50 = some 7
    ∧ cacheGet (cacheSet ([] : CacheState Nat) "k" 7 100 0) "k" 101 = none
    ∧ cacheGet ([] : CacheState Nat) "neverset" 5 = none :=
  ⟨(c6_cache_ttl_semantics [] "k" 7 100 0 50).1 (by decide),
   (c6_cache_ttl_semantics [] "k" 7 100 0 101).2.1 (by decide),
   (c6_cache_ttl_semantics [] "k" 7 100 0 0).2.2 [] "neverset" 5 (by simp)⟩

/-- Consuming a literal succeeds exactly on lists it is a leading
pattern of. -/
theorem dropLit_eq_none_of_not_isPrefixOf (pat l : List Char)
    (h : pat.isPrefixOf l = false) : dropLit pat l = none := by
  induction pat generalizing l with
  | nil => simp [List.isPrefixOf] at h
  | cons p ps ih =>
    cases l with
    | nil => rfl
    | cons c rest =>
      simp only [List.isPrefixOf_cons₂] at h
      by_cases hc : c = p
      · subst hc
        simp only [beq_self_eq_true, Bool.true_and] at h
        simp [dropLit, ih rest h]
      · simp [dropLit, hc]

/-- When the infobox opener occurs nowhere in the text, the extraction
regex finds no match. -/
theorem findInfoboxContent_eq_none (l : List Char)
    (h : containsSub (lit "\x7b\x7bInfobox") l = false) :
    findInfoboxContent l = none := by
  induction l with
  | nil => rfl
  | cons c rest ih =>
    simp only [containsSub, Bool.or_eq_false_iff] at h
    have hdrop : dropLit (lit "\x7b\x7bInfobox") (c :: rest) = none :=
      dropLit_eq_none_of_not_isPrefixOf _ _ h.1
    simp [findInfoboxContent, infoboxMatchAt, hdrop, ih h.2]

/-- C8: wikitext without an `{{Infobox` opener yields an absent result,
not an error; on the claim wikitext the extracted map has
`name = "Ada Lovelace"` and `birth_date = "1815-12-10"`. -/
theorem c8_infobox_extraction :
    (∀ w : String, containsSub (lit "\x7b\x7bInfobox") w.data = false →
      ExtractInfobox w = none)
    ∧ ExtractInfobox
        "\x7b\x7bInfobox person\n| name = Ada Lovelace\n| birth_date = \x7b\x7bbirth date|1815|12|10\x7d\x7d\n\x7d\x7d" =
        some [("name", "Ada Lovelace"), ("birth_date", "1815-12-10")]
    ∧ mapGet [("name", "Ada Lovelace"), ("birth_date", "1815-12-10")] "name" =
        some "Ada Lovelace"
    ∧ mapGet [("name", "Ada Lovelace"), ("birth_date", "1815-12-10")] "birth_date" =
        some "1815-12-10" := by
  refine ⟨?_, by decide, by decide, by decide⟩
  intro w h
  simp [ExtractInfobox, findInfoboxContent_eq_none w.data h]

/-- C8 witness: the no-infobox case at a concrete wikitext. -/
theorem c8_infobox_extraction_witness :
    ExtractInfobox "George Boole was a logician. \x7b\x7bcitation needed\x7d\x7d" = none :=
  c8_infobox_extraction.1 "George Boole was a logician. \x7b\x7bcitation needed\x7d\x7d" (by decide)

/-- First-appearance deduplication depends on the seen set only through
membership. -/
theorem dedupFirstAux_congr (l : List String) (s1 s2 : List String)
    (h : ∀ x, x ∈ s1 ↔ x ∈ s2) : dedupFirstAux l s1 = dedupFirstAux l s2 := by
  induction l generalizing s1 s2 with
  | nil => rfl
  | cons t rest ih =>
    simp only [dedupFirstAux]
    by_cases ht : t ∈ s1
    · rw [if_pos ht, if_pos ((h t).1 ht), ih s1 s2 h]
    · rw [if_neg ht, if_neg (fun hc => ht ((h t).2 hc)),
        ih (t :: s1) (t :: s2) (by intro x; simp [h x])]

/-- The anchor loop of `ExtractLinks` collects exactly the resolved
titles, first-appearance deduplicated against the already collected
ones. -/
theorem extractLinksAux_eq_dedup (anchors : List (Option String)) (links : List String) :
    extractLinksAux anchors links = links ++ dedupFirstAux (resolvedTitles anchors) links := by
  induction anchors generalizing links with
  | nil => simp [extractLinksAux, resolvedTitles, dedupFirstAux]
  | cons a rest ih =>
    cases a with
    | none =>
      simp only [extractLinksAux]
      rw [ih]
      simp [resolvedTitles]
    | some href =>
      simp only [extractLinksAux]
      by_cases he : extractTitleFromHrefS href = ""
      · rw [if_pos he, ih]
        simp [resolvedTitles, he]
      · rw [if_neg he]
        have hres : resolvedTitles (some href :: rest) =
            extractTitleFromHrefS href :: resolvedTitles rest := by
          simp [resolvedTitles, he]
        by_cases hm : extractTitleFromHrefS href ∈ links
        · rw [if_pos hm, ih, hres]
          simp [dedupFirstAux, hm]
        · rw [if_neg hm, ih, hres]
          simp only [dedupFirstAux, if_neg hm]
          rw [dedupFirstAux_congr (resolvedTitles rest)
            (links ++ [extractTitleFromHrefS href]) (extractTitleFromHrefS href :: links)
            (by intro x; simp; tauto)]
          simp

/-- C5 counterexample: percent-encoding is not decoded by
`extractTitleFromHref` (the source `decodeTitle` only converts
underscores), so the anchor `/wiki/A%20B` yields the title `A%20B`, not
the decoded `A B` required by the claim. -/
theorem c5_counterexample_no_percent_decoding :
    ExtractLinks [some "/wiki/A%20B"] = ["A%20B"] ∧ "A%20B" ≠ "A B" :=
  ⟨by decide, by decide⟩

/-- C5 (amended): `ExtractLinks` returns exactly the titles of anchors
whose href matches the `/wiki/` path shape or the `title=` query shape,
with any `#fragment` suffix removed and underscores converted to spaces
(percent-encoding is left as is), anchors matching neither shape
contribute nothing, the result is deduplicated preserving first
appearance, and the two `/wiki/Go_(programming_language)` anchors yield
the single title `Go (programming language)`. -/
theorem c5_extract_links_dedup (anchors : List (Option String)) :
    ExtractLinks anchors = dedupFirst (resolvedTitles anchors)
    ∧ ExtractLinks [some "/wiki/Go_(programming_language)",
        some "/wiki/Go_(programming_language)#section"] = ["Go (programming language)"] := by
  refine ⟨?_, by decide⟩
  simpa [dedupFirst] using extractLinksAux_eq_dedup anchors []

/-- For two or more pending newlines the emitted run is exactly two
newlines. -/
theorem emitNL_of_two_le (p : Nat) (h : 2 ≤ p) : emitNL p = ['\n', '\n'] := by
  rcases Nat.lt_or_ge p 3 with h3 | h3
  · have : p = 2 := by omega
    subst this
    rfl
  · simp [emitNL, h3]

/-- Unfolding of the collapse scan over a newline. -/
theorem collapseNLAux_cons_nl (l : List Char) (p : Nat) :
    collapseNLAux ('\n' :: l) p = collapseNLAux l (p + 1) := by
  simp [collapseNLAux]

/-- Unfolding of the collapse scan over a non-newline. -/
theorem collapseNLAux_cons_other (c : Char) (hc : ¬ c = '\n') (l : List Char) (p : Nat) :
    collapseNLAux (c :: l) p = emitNL p ++ c :: collapseNLAux l 0 := by
  simp [collapseNLAux, hc]

/-- Scanning a newline run adds its length to the pending counter. -/
theorem collapseNLAux_replicate (k : Nat) (l : List Char) (p : Nat) :
    collapseNLAux (List.replicate k '\n' ++ l) p = collapseNLAux l (p + k) := by
  induction k generalizing p with
  | zero => simp
  | succ n ih =>
    rw [List.replicate_succ, List.cons_append, collapseNLAux_cons_nl, ih]
    congr 1
    omega

/-- Once at least two newlines are pending, the exact pending count no
longer influences the scan. -/
theorem collapseNLAux_of_two_le (l : List Char) (p1 p2 : Nat)
    (h1 : 2 ≤ p1) (h2 : 2 ≤ p2) : collapseNLAux l p1 = collapseNLAux l p2 := by
  induction l generalizing p1 p2 with
  | nil => simp [collapseNLAux, emitNL_of_two_le _ h1, emitNL_of_two_le _ h2]
  | cons c rest ih =>
    by_cases hc : c = '\n'
    · subst hc
      rw [collapseNLAux_cons_nl, collapseNLAux_cons_nl]
      exact ih (p1 + 1) (p2 + 1) (by omega) (by omega)
    · rw [collapseNLAux_cons_other c hc, collapseNLAux_cons_other c hc,
        emitNL_of_two_le _ h1, emitNL_of_two_le _ h2]

/-- Inserted newline runs of length at least two are interchangeable
under the collapse scan. -/
theorem collapseNLAux_insert (a b : List Char) (p k1 k2 : Nat)
    (h1 : 2 ≤ k1) (h2 : 2 ≤ k2) :
    collapseNLAux (a ++ List.replicate k1 '\n' ++ b) p =
      collapseNLAux (a ++ List.replicate k2 '\n' ++ b) p := by
  induction a generalizing p with
  | nil =>
    simp only [List.nil_append]
    rw [collapseNLAux_replicate, collapseNLAux_replicate]
    exact collapseNLAux_of_two_le b _ _ (by omega) (by omega)
  | cons c rest ih =>
    rw [List.cons_append, List.cons_append, List.cons_append, List.cons_append]
    by_cases hc : c = '\n'
    · subst hc
      rw [collapseNLAux_cons_nl, collapseNLAux_cons_nl]
      exact ih (p + 1)
    · rw [collapseNLAux_cons_other c hc, collapseNLAux_cons_other c hc, ih 0]

/-- On text without a run of three or more newlines the collapse scan is
the identity (the pending newlines are re-emitted verbatim). -/
theorem collapseNLAux_bounded (l : List Char) (p : Nat) (hp : p ≤ 2)
    (h : maxNLRunBounded l p = true) :
    collapseNLAux l p = List.replicate p '\n' ++ l := by
  induction l generalizing p with
  | nil =>
    simp only [collapseNLAux, emitNL, List.append_nil]
    rw [if_neg (by omega)]
  | cons c rest ih =>
    by_cases hc : c = '\n'
    · subst hc
      simp [maxNLRunBounded] at h
      rw [collapseNLAux_cons_nl, ih (p + 1) (by omega) h.2, List.replicate_succ' p '\n']
      simp
    · simp only [maxNLRunBounded, if_neg hc] at h
      rw [collapseNLAux_cons_other c hc, ih 0 (by omega) h]
      simp only [emitNL]
      rw [if_neg (by omega)]
      simp

/-- The head of a `dropWhile` result fails the dropped predicate. -/
theorem head?_dropWhile_not (p : Char → Bool) (l : List Char) (c : Char)
    (h : (l.dropWhile p).head? = some c) : p c = false := by
  induction l with
  | nil => simp [List.dropWhile] at h
  | cons d rest ih =>
    by_cases hd : p d
    · rw [List.dropWhile_cons_of_pos hd] at h
      exact ih h
    · rw [List.dropWhile_cons_of_neg hd] at h
      simp only [List.head?_cons, Option.some.injEq] at h
      subst h
      exact Bool.eq_false_iff.mpr hd

/-- `dropWhile` is the identity when the head fails the predicate. -/
theorem dropWhile_of_head_not (p : Char → Bool) (l : List Char)
    (h : ∀ c, l.head? = some c → p c = false) : l.dropWhile p = l := by
  cases l with
  | nil => rfl
  | cons d rest =>
    have := h d rfl
    simp [List.dropWhile, this]

/-- A non-empty `dropWhile` result keeps the last element of the
input. -/
theorem getLast?_dropWhile_ne_nil (p : Char → Bool) (l : List Char)
    (h : l.dropWhile p ≠ []) : (l.dropWhile p).getLast? = l.getLast? := by
  induction l with
  | nil => simp [List.dropWhile] at h
  | cons d rest ih =>
    by_cases hd : p d
    · rw [List.dropWhile_cons_of_pos hd] at h ⊢
      rw [ih h]
      have hr : rest ≠ [] := by
        intro he
        rw [he] at h
        simp [List.dropWhile] at h
      cases rest with
      | nil => exact absurd rfl hr
      | cons e rest2 => rw [List.getLast?_cons_cons]
    · rw [List.dropWhile_cons_of_neg hd]

/-- `goTrimSpaceL` output has no leading whitespace. -/
theorem dropWhile_goTrimSpaceL (l : List Char) :
    (goTrimSpaceL l).dropWhile isGoSpace = goTrimSpaceL l := by
  apply dropWhile_of_head_not
  intro c hc
  simp only [goTrimSpaceL] at hc
  rw [List.head?_reverse] at hc
  by_cases hz : (l.dropWhile isGoSpace).reverse.dropWhile isGoSpace = []
  · rw [hz] at hc
    simp at hc
  · rw [getLast?_dropWhile_ne_nil _ _ hz, List.getLast?_reverse] at hc
    exact head?_dropWhile_not _ _ _ hc

/-- Trimming is idempotent, i.e. `goTrimSpaceL` output is already
trimmed on both ends. -/
theorem goTrimSpaceL_idem (l : List Char) :
    goTrimSpaceL (goTrimSpaceL l) = goTrimSpaceL l := by
  have h1 : (goTrimSpaceL l).dropWhile isGoSpace = goTrimSpaceL l :=
    dropWhile_goTrimSpaceL l
  show (((goTrimSpaceL l).dropWhile isGoSpace).reverse.dropWhile isGoSpace).reverse =
    goTrimSpaceL l
  rw [h1]
  show ((((l.dropWhile isGoSpace).reverse.dropWhile isGoSpace).reverse).reverse.dropWhile
    isGoSpace).reverse = goTrimSpaceL l
  rw [List.reverse_reverse, List.dropWhile_idempotent]
  rfl

/-- C7: the post-conversion cleanup collapses every run of three or more
consecutive blank lines (a run of `n + 1` newlines separates `n` blank
lines) to exactly one blank line (two newlines); on text without such
runs it performs exactly the leading and trailing whitespace trim; and
its output carries no leading or trailing whitespace. -/
theorem c7_cleanup_markdown :
    (∀ (a b : List Char) (n : Nat), 3 ≤ n →
      cleanupMarkdown (a ++ List.replicate (n + 1) '\n' ++ b) =
        cleanupMarkdown (a ++ List.replicate 2 '\n' ++ b))
    ∧ (∀ l : List Char, maxNLRunBounded l 0 = true →
        cleanupMarkdown l = goTrimSpaceL l)
    ∧ (∀ l : List Char, goTrimSpaceL (cleanupMarkdown l) = cleanupMarkdown l) := by
  refine ⟨?_, ?_, ?_⟩
  · intro a b n hn
    simp only [cleanupMarkdown, collapseNL]
    rw [collapseNLAux_insert a b 0 (n + 1) 2 (by omega) (by omega)]
  · intro l h
    simp only [cleanupMarkdown, collapseNL]
    rw [collapseNLAux_bounded l 0 (by omega) h]
    rfl
  · intro l
    simp only [cleanupMarkdown]
    exact goTrimSpaceL_idem _

/-- C7 witness: the cleanup behaviour at concrete inputs (four newlines
collapse like two, bounded runs are only trimmed). -/
theorem c7_cleanup_markdown_witness :
    cleanupMarkdown (lit "a" ++ List.replicate 4 '\n' ++ lit "b") =
      cleanupMarkdown (lit "a" ++ List.replicate 2 '\n' ++ lit "b")
    ∧ cleanupMarkdown (lit " x\n\ny ") = goTrimSpaceL (lit " x\n\ny ")
    ∧ goTrimSpaceL (cleanupMarkdown (lit "  a\n\n\n\nb  ")) =
      cleanupMarkdown (lit "  a\n\n\n\nb  ") :=
  ⟨c7_cleanup_markdown.1 (lit "a") (lit "b") 3 (by decide),
   c7_cleanup_markdown.2.1 (lit " x\n\ny ") (by decide),
   c7_cleanup_markdown.2.2 (lit "  a\n\n\n\nb  ")⟩

/-- C1: on a flat table-of-contents with toclevels `[1, 2, 3, 2, 1]`
(lead excluded, arbitrary titles and indices), `buildSectionsTree`
produces the lead followed by exactly two non-lead top-level entries,
the first with two nested children of which the first has a grandchild
and the second has none; and `flattenSections` of the resulting tree
reproduces the original flat order, lead first. -/
theorem c1_tree_shape_and_roundtrip (m1 m2 m3 m4 m5 : MWSection)
    (h1 : m1.tocLevel = 1) (h2 : m2.tocLevel = 2) (h3 : m3.tocLevel = 3)
    (h4 : m4.tocLevel = 2) (h5 : m5.tocLevel = 1) (wikiURL title leadContent : String) :
    buildSectionsTree [m1, m2, m3, m4, m5] wikiURL title leadContent =
      [leadSection leadContent,
       { mkSection m1 with subsections :=
         [{ mkSection m2 with subsections := [mkSection m3] }, mkSection m4] },
       mkSection m5]
    ∧ (flattenSections (buildSectionsTree [m1, m2, m3, m4, m5] wikiURL title
          leadContent)).map (fun s => (s.index, s.title, s.level)) =
      (0, "Lead", 1) ::
        [m1, m2, m3, m4, m5].map (fun m => (goAtoi m.index, m.line, m.tocLevel + 1)) := by
  constructor
  · simp [buildSectionsTree, buildStep, stackPop, stackPopFuel, stackFlush, stackFlushFuel,
      mkSection, h1, h2, h3, h4, h5]
  · simp [buildSectionsTree, buildStep, stackPop, stackPopFuel, stackFlush, stackFlushFuel,
      mkSection, h1, h2, h3, h4, h5, flattenSections, leadSection]

/-- C1 witness: the tree shape and round trip at a concrete flat
table-of-contents with toclevels `[1, 2, 3, 2, 1]`. -/
theorem c1_tree_shape_and_roundtrip_witness :
    buildSectionsTree
        [⟨1, "2", "A", "1", "1"⟩, ⟨2, "3", "B", "1.1", "2"⟩, ⟨3, "4", "C", "1.1.1", "3"⟩,
         ⟨2, "3", "D", "1.2", "4"⟩, ⟨1, "2", "E", "2", "5"⟩] "https://w" "T" "lead" =
      [leadSection "lead",
       { mkSection ⟨1, "2", "A", "1", "1"⟩ with subsections :=
         [{ mkSection ⟨2, "3", "B", "1.1", "2"⟩ with
            subsections := [mkSection ⟨3, "4", "C", "1.1.1", "3"⟩] },
          mkSection ⟨2, "3", "D", "1.2", "4"⟩] },
       mkSection ⟨1, "2", "E", "2", "5"⟩]
    ∧ (flattenSections (buildSectionsTree
        [⟨1, "2", "A", "1", "1"⟩, ⟨2, "3", "B", "1.1", "2"⟩, ⟨3, "4", "C", "1.1.1", "3"⟩,
         ⟨2, "3", "D", "1.2", "4"⟩, ⟨1, "2", "E", "2", "5"⟩] "https://w" "T" "lead")).map
        (fun s => (s.index, s.title, s.level)) =
      (0, "Lead", 1) ::
        [⟨1, "2", "A", "1", "1"⟩, ⟨2, "3", "B", "1.1", "2"⟩, ⟨3, "4", "C", "1.1.1", "3"⟩,
         ⟨2, "3", "D", "1.2", "4"⟩,
         (⟨1, "2", "E", "2", "5"⟩ : MWSection)].map
          (fun m => (goAtoi m.index, m.line, m.tocLevel + 1)) :=
  c1_tree_shape_and_roundtrip _ _ _ _ _ rfl rfl rfl rfl rfl "https://w" "T" "lead"

/-- C2: over an outline whose flattened sections carry indices
`[0, 1, 2, 3]` at levels `[1, 2, 3, 2]`, requesting index 2 resolves the
parent to the section at index 1 (nearest preceding strictly lower
level), the previous neighbour to index 1 and the next neighbour to
index 3; requesting any index not present fails with a
`SectionNotFoundError` carrying the requested index and an available
count of exactly 4. -/
theorem c2_section_lookup (secs : List Section) (s0 s1 s2 s3 : Section)
    (hf : flattenSections secs = [s0, s1, s2, s3])
    (h0 : s0.index = 0) (h1 : s1.index = 1) (h2 : s2.index = 2) (h3 : s3.index = 3)
    (l0 : s0.level = 1) (l1 : s1.level = 2) (l2 : s2.level = 3) (l3 : s3.level = 2) :
    findSectionContext secs 2 = .ok ⟨s2, some s1, some s1, some s3⟩
    ∧ ∀ idx : Int, idx ∉ ([0, 1, 2, 3] : List Int) →
        findSectionContext secs idx = .error ⟨idx, 4⟩ := by
  constructor
  · simp [findSectionContext, hf, findMatchPos, h0, h1, h2, h3, l1, l2, List.find?]
  · intro idx hi
    simp only [List.mem_cons, List.mem_singleton, not_or] at hi
    obtain ⟨n0, n1, n2, n3⟩ := hi
    have e0 : (s0.index == idx) = false := by simp [h0]; omega
    have e1 : (s1.index == idx) = false := by simp [h1]; omega
    have e2 : (s2.index == idx) = false := by simp [h2]; omega
    have e3 : (s3.index == idx) = false := by simp [h3]; omega
    simp [findSectionContext, hf, findMatchPos, e0, e1, e2, e3]

/-- Concrete sections used to witness the section lookup claim. -/
def c2sec0 : Section := ⟨0, "Lead", 1, "", "", [], 0, []⟩

def c2sec1 : Section := ⟨1, "History", 2, "", "", [], 0, []⟩

def c2sec2 : Section := ⟨2, "Origins", 3, "", "", [], 0, []⟩

def c2sec3 : Section := ⟨3, "Design", 2, "", "", [], 0, []⟩

/-- C2 witness: the lookup at a concrete flat outline with indices
`[0, 1, 2, 3]` and levels `[1, 2, 3, 2]`. -/
theorem c2_section_lookup_witness :
    findSectionContext [c2sec0, c2sec1, c2sec2, c2sec3] 2 =
      .ok ⟨c2sec2, some c2sec1, some c2sec1, some c2sec3⟩
    ∧ findSectionContext [c2sec0, c2sec1, c2sec2, c2sec3] 99 = .error ⟨99, 4⟩ := by
  have h := c2_section_lookup [c2sec0, c2sec1, c2sec2, c2sec3] c2sec0 c2sec1 c2sec2 c2sec3
    (by simp [flattenSections, c2sec0, c2sec1, c2sec2, c2sec3])
    rfl rfl rfl rfl rfl rfl rfl rfl
  exact ⟨h.1, h.2 99 (by decide)⟩

/-- C9: auxiliary enrichments fail open.  When the category-members
fetch succeeds, a failing parent-categories fetch still yields a
successful `CategoryResponse` with an empty parent list; when the
outline fetches and the markdown conversion succeed, a failing wikitext
fetch still yields a successful `PageOutline` with the infobox
absent. -/
theorem c9_fail_open :
    (∀ (q : MWQueryCat) (category : String) (e : GoError),
      ∃ r, GetCategory (.ok (some q)) (.error e) category = .ok r
        ∧ r.parentCategories = [])
    ∧ (∀ (sp lp : MWParse) (e : GoError)
        (convertString : String → Except GoError String)
        (htmlAnchors : String → List (Option String)) (wikiURL title md : String),
        convertString lp.text.content = .ok md →
        ∃ o, GetPageOutline ⟨.ok ⟨some sp⟩, .ok ⟨some lp⟩, .error e, convertString,
            htmlAnchors⟩ wikiURL title = .ok o
          ∧ o.infobox = none) := by
  constructor
  · intro q category e
    exact ⟨_, rfl, rfl⟩
  · intro sp lp e convertString htmlAnchors wikiURL title md hconv
    simp only [GetPageOutline, HTMLToMarkdown, hconv]
    exact ⟨_, rfl, rfl⟩

/-- C9 witness: both fail-open behaviours at concrete inputs. -/
theorem c9_fail_open_witness :
    (∃ r, GetCategory (.ok (some ⟨[⟨7, "Page A", "page"⟩]⟩)) (.error "boom") "Science" =
        .ok r ∧ r.parentCategories = [])
    ∧ (∃ o, GetPageOutline ⟨.ok ⟨some ⟨"T", ⟨"<p>hello</p>"⟩, [], [], []⟩⟩,
          .ok ⟨some ⟨"T", ⟨"<p>hello</p>"⟩, [], [], []⟩⟩, .error "boom",
          (fun s => .ok s), (fun _ => [])⟩ "https://w" "T" = .ok o
        ∧ o.infobox = none) :=
  ⟨c9_fail_open.1 ⟨[⟨7, "Page A", "page"⟩]⟩ "Science" "boom",
   c9_fail_open.2 ⟨"T", ⟨"<p>hello</p>"⟩, [], [], []⟩ ⟨"T", ⟨"<p>hello</p>"⟩, [], [], []⟩
     "boom" (fun s => .ok s) (fun _ => []) "https://w" "T" "<p>hello</p>" rfl⟩

end MediawikiMCP
